import Mathlib

/-!
Shallow embedding of the omnipulse-agent sampling-and-diff core.

The embedding follows the Go sources:
- src/main.go          : safeDelta, isLoopback, readNetTotals, collectIfaceMetrics,
                         nextSleep, minInt, sendMetrics, runAgent round bookkeeping
- src/watchdog.go      : samePIDs, collectWatchdog, sendWatchdogToBackend, sendWatchdog
- src/unnamed/part_004 : sendProcesses

Machine integers are modelled as Nat (uint64 counters) and Int (int64
durations and casts), with explicit reduction modulo 2 to the 64 where the Go
arithmetic can overflow.  OS providers and the HTTP transport are opaque
collaborators; their results enter the model as explicit arguments
(Option for fallible queries, an HttpOutcome value for the transport).
-/

/-- Twos-complement wraparound of an integer into the int64 range, modelling
overflow of Go int64 arithmetic (time.Duration multiplication). -/
def wrap64 (x : Int) : Int := (x + 2 ^ 63) % 2 ^ 64 - 2 ^ 63

/-- The Go conversion int64(n) applied to a uint64 value n: values below
2 to the 63 are kept, larger ones reinterpret as negative. -/
def toInt64 (n : Nat) : Int := if n < 2 ^ 63 then (n : Int) else (n : Int) - 2 ^ 64

/-- safeDelta from src/main.go lines 535-540: uint64 counter delta.
If curr is less than prev the counter reset: report (0, false).
Otherwise report the uint64 difference cast to int64, and true. -/
def safeDelta (prev curr : Nat) : Int × Bool :=
  if curr < prev then (0, false) else (toInt64 ((curr - prev) % 2 ^ 64), true)

/-- minInt from src/main.go lines 568-573. -/
def minInt (a b : Int) : Int := if a < b then a else b

/-- One second in nanoseconds: the unit of Go time.Duration. -/
def timeSecond : Int := 1000000000

/-- nextSleep from src/main.go lines 554-566: the adaptive backoff delay.
Durations are int64 nanosecond counts; the multiplication
interval * (1 shifted left by min(failCount,4)) wraps like Go int64. -/
def nextSleep (interval : Int) (failCount : Int) : Int :=
  if failCount ≤ 0 then interval
  else
    let backoff := wrap64 (interval * 2 ^ (minInt failCount 4).toNat)
    let capped := if 60 * timeSecond < backoff then 60 * timeSecond else backoff
    if capped < interval then interval else capped

/-- The delay formula as the specification words it: for positive failCount,
min(interval * 2 ^ min(failCount,4), 60s) floored at interval. -/
def nextDelaySpec (interval : Int) (failCount : Int) : Int :=
  if failCount ≤ 0 then interval
  else max (min (interval * 2 ^ (minInt failCount 4).toNat) (60 * timeSecond)) interval

/-- samePIDs from src/watchdog.go lines 140-154: equal lengths, and every
PID of b is a member of the set built from a. -/
def samePIDs (a b : List Int) : Bool :=
  if a.length ≠ b.length then false
  else b.all fun pid => decide (pid ∈ a)

/-- Boolean set-equality of PID lists (same members, ignoring order and
duplicates) — the relation the specification ascribes to samePIDs. -/
def pidSetEqB (a b : List Int) : Bool :=
  (a.all fun x => decide (x ∈ b)) && (b.all fun x => decide (x ∈ a))

/-- Outcome of one HTTP dispatch attempt, as seen by the agent: either the
transport errs (connection failure or timeout of client.Do), or a response
with some status code arrives. -/
inductive HttpOutcome where
  | transportError : HttpOutcome
  | response : Nat → HttpOutcome
deriving DecidableEq

/-- sendMetrics from src/main.go lines 367-400, reduced to its error
decision: transport error fails, status at least 300 fails, otherwise ok. -/
def sendMetrics (r : HttpOutcome) : Except String Unit :=
  match r with
  | .transportError => .error ("post")
  | .response status =>
      if 300 ≤ status then .error ("status=" ++ toString status) else .ok ()

/-- sendWatchdog from src/watchdog.go lines 193-218, reduced to its error
decision: transport error fails, any status other than 200 fails. -/
def sendWatchdog (r : HttpOutcome) : Except String Unit :=
  match r with
  | .transportError => .error ("post")
  | .response status =>
      if status ≠ 200 then .error ("server returned " ++ toString status) else .ok ()

/-- sendProcesses from src/unnamed/part_004 lines 108-132, reduced to its
error decision: transport error fails, status at least 400 fails. -/
def sendProcesses (r : HttpOutcome) : Except String Unit :=
  match r with
  | .transportError => .error ("post")
  | .response status =>
      if 400 ≤ status then .error ("server returned " ++ toString status) else .ok ()

/-- The aggregate-net bookkeeping state of runAgent (src/main.go lines
216-217): the previous round totals and whether any previous totals exist. -/
structure AgentNetState where
  prevNet : Nat × Nat
  hasPrev : Bool
deriving DecidableEq

/-- One round of the runAgent dispatch bookkeeping, src/main.go lines
238-247: on dispatch failure increment failCount and leave the net snapshot
alone; on success reset failCount and, when the net read was valid, store
the current totals. -/
def runAgentNetStep (st : AgentNetState) (netTotals : Nat × Nat)
    (netOK : Bool) (sendOK : Bool) (failCount : Int) : AgentNetState × Int :=
  if sendOK then
    (if netOK then ⟨netTotals, true⟩ else st, 0)
  else (st, failCount + 1)

/-- isLoopback from src/main.go lines 542-545: case-insensitive test that
the interface name begins with lo (strings.ToLower then strings.HasPrefix,
modelled over the character list; interface names are ASCII). -/
def isLoopback (name : String) : Bool :=
  match name.data.map Char.toLower with
  | 'l' :: 'o' :: _ => true
  | _ => false

/-- Association-list lookup, modelling Go map indexing m[k] on a map whose
entries are listed in insertion order. -/
def lookupName {α : Type} : List (String × α) → String → Option α
  | [], _ => none
  | (n, v) :: rest, k => if n = k then some v else lookupName rest k

/-- The key set of an association-list map. -/
def keysOf {α : Type} (m : List (String × α)) : List String := m.map Prod.fst

/-- watchdogProcess from src/watchdog.go lines 38-41: the stored per-name
record of the previous snapshot.  Times are abstract tick counts. -/
structure watchdogProcess where
  PIDs : List Int
  LastSeenAt : Nat
deriving DecidableEq

/-- WatchdogEntry from src/watchdog.go lines 18-24. -/
structure WatchdogEntry where
  name : String
  status : String
  restartCount : Int
  lastSeenAt : Nat
  pids : List Int
deriving DecidableEq

/-- One step of building the current map in collectWatchdog (src/watchdog.go
line 65): append the pid to the entry for its name, creating it if absent. -/
def addPid (m : List (String × List Int)) (name : String) (pid : Int) :
    List (String × List Int) :=
  match m with
  | [] => [(name, [pid])]
  | (n, ps) :: rest =>
      if n = name then (n, ps ++ [pid]) :: rest else (n, ps) :: addPid rest name pid

/-- The current name-to-PIDs map of collectWatchdog (src/watchdog.go lines
59-66): every listed process with a non-empty name contributes its pid. -/
def buildCurrent (procs : List (Int × String)) : List (String × List Int) :=
  procs.foldl (fun m p => if p.2 = ("") then m else addPid m p.2 p.1) []

/-- The body of the first classification loop of collectWatchdog
(src/watchdog.go lines 75-102) for one previously seen name: absent from
current means crashed; present with the same PID set means running; present
with a different PID set means restarted. -/
def classifyOne (current : List (String × List Int)) (now : Nat)
    (pr : String × watchdogProcess) : WatchdogEntry :=
  match lookupName current pr.1 with
  | none => ⟨pr.1, "crashed", 0, pr.2.LastSeenAt, []⟩
  | some pids =>
      if samePIDs pr.2.PIDs pids then ⟨pr.1, "running", 0, now, pids⟩
      else ⟨pr.1, "restarted", 1, now, pids⟩

/-- The first classification loop of collectWatchdog (src/watchdog.go lines
75-102): every previously seen name becomes crashed, running or restarted. -/
def classifyPrev (current : List (String × List Int)) (now : Nat)
    (previous : List (String × watchdogProcess)) : List WatchdogEntry :=
  previous.map (classifyOne current now)

/-- The second loop of collectWatchdog (src/watchdog.go lines 105-115):
names absent from the previous snapshot are first sightings. -/
def newSightings (previous : List (String × watchdogProcess)) (now : Nat)
    (current : List (String × List Int)) : List WatchdogEntry :=
  current.filterMap fun c =>
    match lookupName previous c.1 with
    | some _ => none
    | none => some ⟨c.1, "running", 0, now, c.2⟩

/-- The entry list of one watchdog round before sorting and truncation. -/
def wdPre (previous : List (String × watchdogProcess))
    (current : List (String × List Int)) (now : Nat) : List WatchdogEntry :=
  classifyPrev current now previous ++ newSightings previous now current

/-- Lexicographic strict comparison of character lists by code point,
matching the byte-wise Go string comparison used by the sort in
collectWatchdog. -/
def charListLt : List Char → List Char → Bool
  | _, [] => false
  | [], _ :: _ => true
  | a :: as, b :: bs =>
      if a.toNat < b.toNat then true
      else if b.toNat < a.toNat then false
      else charListLt as bs

/-- The strict string comparison entries[i].Name less than entries[j].Name. -/
def strLtB (a b : String) : Bool := charListLt a.data b.data

/-- The reflexive closure used as the sortedness relation: a is at most b. -/
def strLeB (a b : String) : Bool := !(strLtB b a)

/-- The name ordering on watchdog entries (src/watchdog.go lines 127-129). -/
def entryLe (a b : WatchdogEntry) : Prop := strLeB a.name b.name = true

instance : DecidableRel entryLe :=
  fun a b => inferInstanceAs (Decidable (strLeB a.name b.name = true))

/-- The emitted entries of one watchdog round (src/watchdog.go lines
127-134): diff entries sorted by name, truncated to the first 100. -/
def collectWatchdogEntries (previous : List (String × watchdogProcess))
    (current : List (String × List Int)) (now : Nat) : List WatchdogEntry :=
  (List.insertionSort entryLe (wdPre previous current now)).take 100

/-- The mutable watchdog state wdState (src/watchdog.go lines 33-45). -/
structure WdState where
  previous : List (String × watchdogProcess)
deriving DecidableEq

/-- collectWatchdog from src/watchdog.go lines 49-137 as a state transformer.
The process-listing provider result is an explicit argument: none models a
listing failure, in which case the function returns the error before
touching the stored snapshot. -/
def collectWatchdog (listing : Option (List (Int × String))) (st : WdState)
    (now : Nat) : Option (List WatchdogEntry) × WdState :=
  match listing with
  | none => (none, st)
  | some procs =>
      let current := buildCurrent procs
      (some (collectWatchdogEntries st.previous current now),
       ⟨current.map fun c => (c.1, ⟨c.2, now⟩)⟩)

/-- sendWatchdogToBackend from src/watchdog.go lines 156-191, reduced to its
transmit decision: on a collection error nothing is sent; otherwise the
payload is sent exactly when the entry list is non-empty. -/
def sendWatchdogToBackend (listing : Option (List (Int × String)))
    (st : WdState) (now : Nat) : Bool × WdState :=
  match collectWatchdog listing st now with
  | (none, st2) => (false, st2)
  | (some entries, st2) => (!entries.isEmpty, st2)

/-- The per-interface counters of gopsutil IOCountersStat consumed by
src/main.go (uint64 counters). -/
structure IOCountersStat where
  Name : String
  BytesRecv : Nat
  BytesSent : Nat
  PacketsRecv : Nat
  PacketsSent : Nat
  Errin : Nat
  Errout : Nat
deriving DecidableEq

/-- NetIfaceMetric from src/main.go lines 45-53. -/
structure NetIfaceMetric where
  Iface : String
  BytesIn : Int
  BytesOut : Int
  PacketsIn : Int
  PacketsOut : Int
  ErrorsIn : Int
  ErrorsOut : Int
deriving DecidableEq

/-- Go map assignment m[k] = v on an association list: overwrite the
existing binding or append a new one. -/
def insertA {α : Type} (m : List (String × α)) (k : String) (v : α) :
    List (String × α) :=
  match m with
  | [] => [(k, v)]
  | (n, w) :: rest =>
      if n = k then (n, v) :: rest else (n, w) :: insertA rest k v

/-- The next map built by collectIfaceMetrics (src/main.go lines 494-500):
all non-loopback interfaces of the current reading, keyed by name. -/
def netNext (statList : List IOCountersStat) : List (String × IOCountersStat) :=
  statList.foldl (fun m s => if isLoopback s.Name then m else insertA m s.Name s) []

/-- All six per-interface counter deltas between two readings are valid. -/
def allSixValid (old curr : IOCountersStat) : Prop :=
  (safeDelta old.BytesRecv curr.BytesRecv).2 = true ∧
  (safeDelta old.BytesSent curr.BytesSent).2 = true ∧
  (safeDelta old.PacketsRecv curr.PacketsRecv).2 = true ∧
  (safeDelta old.PacketsSent curr.PacketsSent).2 = true ∧
  (safeDelta old.Errin curr.Errin).2 = true ∧
  (safeDelta old.Errout curr.Errout).2 = true

/-- The complete six-delta entry emitted for one interface. -/
def fullIfaceEntry (name : String) (old curr : IOCountersStat) : NetIfaceMetric :=
  ⟨name, (safeDelta old.BytesRecv curr.BytesRecv).1,
   (safeDelta old.BytesSent curr.BytesSent).1,
   (safeDelta old.PacketsRecv curr.PacketsRecv).1,
   (safeDelta old.PacketsSent curr.PacketsSent).1,
   (safeDelta old.Errin curr.Errin).1,
   (safeDelta old.Errout curr.Errout).1⟩

/-- The per-interface body of the metric loop of collectIfaceMetrics
(src/main.go lines 507-530): skip interfaces without a previous reading,
compute the six safeDelta values, and emit the complete entry only when
all six are valid. -/
def ifaceDelta (prev : List (String × IOCountersStat))
    (c : String × IOCountersStat) : Option NetIfaceMetric :=
  match lookupName prev c.1 with
  | none => none
  | some old =>
      if (safeDelta old.BytesRecv c.2.BytesRecv).2 &&
         (safeDelta old.BytesSent c.2.BytesSent).2 &&
         (safeDelta old.PacketsRecv c.2.PacketsRecv).2 &&
         (safeDelta old.PacketsSent c.2.PacketsSent).2 &&
         (safeDelta old.Errin c.2.Errin).2 &&
         (safeDelta old.Errout c.2.Errout).2 then
        some (fullIfaceEntry c.1 old c.2)
      else none

/-- collectIfaceMetrics from src/main.go lines 488-533.  The provider
reading is an explicit argument (none models a read failure).  Returns
(metrics, next snapshot, ok flag, error flag). -/
def collectIfaceMetrics (stats : Option (List IOCountersStat))
    (prev : List (String × IOCountersStat)) (hasPrev : Bool) :
    List NetIfaceMetric × List (String × IOCountersStat) × Bool × Bool :=
  match stats with
  | none => ([], prev, false, true)
  | some statList =>
      let next := netNext statList
      if !hasPrev then ([], next, false, false)
      else
        let metrics := next.filterMap (ifaceDelta prev)
        (metrics, next, decide (0 < metrics.length), false)

/-- readNetTotals from src/main.go lines 472-486: aggregate bytes in and out
over all non-loopback interfaces (uint64 additions wrap).  Returns
(totals, ok flag, error flag). -/
def readNetTotals (stats : Option (List IOCountersStat)) :
    (Nat × Nat) × Bool × Bool :=
  match stats with
  | none => ((0, 0), false, true)
  | some statList =>
      (statList.foldl
        (fun t s =>
          if isLoopback s.Name then t
          else ((t.1 + s.BytesRecv) % 2 ^ 64, (t.2 + s.BytesSent) % 2 ^ 64))
        (0, 0), true, false)

/-- The classification the watchdog diff ascribes to a single emitted entry,
in terms of the lookups of its name in the two snapshots. -/
def entryMatchesDiff (previous : List (String × watchdogProcess))
    (current : List (String × List Int)) (now : Nat) (e : WatchdogEntry) : Prop :=
  match lookupName previous e.name, lookupName current e.name with
  | some pr, none => e = ⟨e.name, "crashed", 0, pr.LastSeenAt, []⟩
  | some pr, some pids =>
      e = if samePIDs pr.PIDs pids then ⟨e.name, "running", 0, now, pids⟩
          else ⟨e.name, "restarted", 1, now, pids⟩
  | none, some pids => e = ⟨e.name, "running", 0, now, pids⟩
  | none, none => False

/-- A process listing with 101 distinct two-letter names, used to exercise
the 100-entry output cap of the watchdog round. -/
def manyProcs : List (Int × String) :=
  (List.range 101).map fun i =>
    (Int.ofNat i, String.mk [Char.ofNat (97 + i / 26), Char.ofNat (97 + i % 26)])

/-! Helper lemmas -/

theorem wrap64_lb (x : Int) : -(2 ^ 63) ≤ wrap64 x := by
  unfold wrap64
  have h := Int.emod_nonneg (x + 2 ^ 63) (by norm_num : (2 ^ 64 : Int) ≠ 0)
  omega

theorem wrap64_ub (x : Int) : wrap64 x < 2 ^ 63 := by
  unfold wrap64
  have h := Int.emod_lt_of_pos (x + 2 ^ 63) (by norm_num : (0 : Int) < 2 ^ 64)
  omega

theorem wrap64_eq_of_bounds (x : Int) (h1 : -(2 ^ 63) ≤ x) (h2 : x < 2 ^ 63) :
    wrap64 x = x := by
  unfold wrap64
  rw [Int.emod_eq_of_lt (by omega) (by omega)]
  omega

theorem minInt_toNat_bounds (f : Int) (hf : ¬ f ≤ 0) :
    1 ≤ (minInt f 4).toNat ∧ (minInt f 4).toNat ≤ 4 := by
  unfold minInt
  split <;> omega

theorem nextSleep_eq_spec (interval failCount : Int) (h0 : 0 < interval) :
    nextSleep interval failCount = nextDelaySpec interval failCount := by
  simp only [nextSleep, nextDelaySpec]
  by_cases hf : failCount ≤ 0
  · simp [hf]
  · simp only [if_neg hf]
    obtain ⟨hk1, hk4⟩ := minInt_toNat_bounds failCount hf
    set k := (minInt failCount 4).toNat with hkdef
    have hp2 : (2 : Int) ≤ 2 ^ k := by
      calc (2 : Int) = 2 ^ 1 := by norm_num
      _ ≤ 2 ^ k := pow_le_pow_right₀ (by norm_num) hk1
    have hp16 : (2 : Int) ^ k ≤ 16 := by
      calc (2 : Int) ^ k ≤ 2 ^ 4 := pow_le_pow_right₀ (by norm_num) hk4
      _ = 16 := by norm_num
    have hple : interval ≤ interval * 2 ^ k :=
      le_mul_of_one_le_right (le_of_lt h0) (by omega)
    by_cases hbig : interval ≤ 60 * timeSecond
    · have hub : interval * 2 ^ k < 2 ^ 63 := by
        have h1 : interval * 2 ^ k ≤ interval * 16 :=
          mul_le_mul_of_nonneg_left hp16 (le_of_lt h0)
        have h2 : interval ≤ 60000000000 := by
          simpa [timeSecond] using hbig
        nlinarith
      rw [wrap64_eq_of_bounds _ (by nlinarith) hub]
      simp only [min_def, max_def]
      split_ifs <;> omega
    · push_neg at hbig
      have hw1 := wrap64_lb (interval * 2 ^ k)
      have hw2 := wrap64_ub (interval * 2 ^ k)
      have hgt : 60 * timeSecond < interval * 2 ^ k := lt_of_lt_of_le hbig hple
      simp only [min_def, max_def]
      split_ifs <;> omega

theorem nextDelaySpec_lower (interval failCount : Int) :
    interval ≤ nextDelaySpec interval failCount := by
  unfold nextDelaySpec
  split_ifs
  · exact le_refl _
  · exact le_max_right _ _

theorem nextDelaySpec_upper (interval failCount : Int) :
    nextDelaySpec interval failCount ≤ max interval (60 * timeSecond) := by
  unfold nextDelaySpec
  split_ifs
  · exact le_max_left _ _
  · simp only [min_def, max_def]
    split_ifs <;> omega

theorem nextDelaySpec_mono (interval : Int) (h0 : 0 < interval) {f1 f2 : Int}
    (h : f1 ≤ f2) : nextDelaySpec interval f1 ≤ nextDelaySpec interval f2 := by
  unfold nextDelaySpec
  by_cases h1 : f1 ≤ 0 <;> by_cases h2 : f2 ≤ 0
  · simp [h1, h2]
  · simp only [if_pos h1, if_neg h2]
    exact le_max_right _ _
  · omega
  · simp only [if_neg h1, if_neg h2]
    have hk : (minInt f1 4).toNat ≤ (minInt f2 4).toNat := by
      apply Int.toNat_le_toNat
      unfold minInt
      split_ifs <;> omega
    have hpow : (2 : Int) ^ (minInt f1 4).toNat ≤ 2 ^ (minInt f2 4).toNat :=
      pow_le_pow_right₀ (by norm_num) hk
    have hp : interval * 2 ^ (minInt f1 4).toNat ≤ interval * 2 ^ (minInt f2 4).toNat :=
      mul_le_mul_of_nonneg_left hpow (le_of_lt h0)
    simp only [min_def, max_def]
    split_ifs <;> omega

/-- C2 (amended): for every int64 interval with 0 < interval < 2 to the 63,
nextSleep returns interval when failCount is at most 0, and otherwise
min(interval * 2 ^ min(failCount,4), 60s) floored at interval; it is
monotonic non-decreasing in failCount, never drops below interval, and
never exceeds max(interval, 60s) — in particular it never exceeds 60s
whenever interval is at most 60s; for interval = 10s, failCount in
0,1,2,3,4,10 yields 10,20,40,60,60,60 seconds. -/
theorem C2_nextSleep_backoff (interval f1 f2 : Int)
    (h0 : 0 < interval) (hf : f1 ≤ f2) :
    nextSleep interval f1 = nextDelaySpec interval f1 ∧
    nextSleep interval f1 ≤ nextSleep interval f2 ∧
    interval ≤ nextSleep interval f1 ∧
    nextSleep interval f1 ≤ max interval (60 * timeSecond) ∧
    (interval ≤ 60 * timeSecond → nextSleep interval f1 ≤ 60 * timeSecond) ∧
    nextSleep (10 * timeSecond) 0 = 10 * timeSecond ∧
    nextSleep (10 * timeSecond) 1 = 20 * timeSecond ∧
    nextSleep (10 * timeSecond) 2 = 40 * timeSecond ∧
    nextSleep (10 * timeSecond) 3 = 60 * timeSecond ∧
    nextSleep (10 * timeSecond) 4 = 60 * timeSecond ∧
    nextSleep (10 * timeSecond) 10 = 60 * timeSecond := by
  have he1 := nextSleep_eq_spec interval f1 h0
  have he2 := nextSleep_eq_spec interval f2 h0
  refine ⟨he1, ?_, ?_, ?_, ?_, by decide, by decide, by decide, by decide, by decide, by decide⟩
  · rw [he1, he2]
    exact nextDelaySpec_mono interval h0 hf
  · rw [he1]
    exact nextDelaySpec_lower interval f1
  · rw [he1]
    exact nextDelaySpec_upper interval f1
  · intro hle
    rw [he1]
    have h := nextDelaySpec_upper interval f1
    omega

/-- C2 witness: the theorem applied at interval = 10s, failCount 2 and 3. -/
theorem C2_witness :
    nextSleep (10 * timeSecond) 2 ≤ nextSleep (10 * timeSecond) 3 :=
  (C2_nextSleep_backoff (10 * timeSecond) 2 3 (by decide) (by decide)).2.1

/-- C2 counterexample: for interval = 120s the delay is 120s at failCount 1,
so the claimed universal 60-second ceiling is false. -/
theorem C2_counterexample :
    nextSleep (120 * timeSecond) 1 = 120 * timeSecond ∧
    60 * timeSecond < nextSleep (120 * timeSecond) 1 := by decide

/-- C6 (amended): safeDelta returns (0, false) exactly when curr < prev; for
curr at least prev it returns the uint64 difference cast through int64,
which equals curr - prev whenever that difference is below 2 to the 63
(and in particular on the quoted examples). -/
theorem C6_safeDelta (prev curr : Nat) :
    (curr < prev → safeDelta prev curr = (0, false)) ∧
    (prev ≤ curr → safeDelta prev curr = (toInt64 ((curr - prev) % 2 ^ 64), true)) ∧
    (prev ≤ curr → curr - prev < 2 ^ 63 →
      safeDelta prev curr = ((curr : Int) - (prev : Int), true)) ∧
    safeDelta 100 200 = (100, true) ∧
    safeDelta 200 100 = (0, false) ∧
    safeDelta 50 50 = (0, true) := by
  refine ⟨?_, ?_, ?_, by decide, by decide, by decide⟩
  · intro h
    simp [safeDelta, h]
  · intro h
    rw [safeDelta, if_neg (by omega)]
  · intro h hsmall
    rw [safeDelta, if_neg (by omega)]
    have hmod : (curr - prev) % 2 ^ 64 = curr - prev := Nat.mod_eq_of_lt (by omega)
    rw [hmod, toInt64, if_pos hsmall, Prod.mk.injEq]
    constructor
    · omega
    · rfl

/-- C6 witness: the theorem applied at prev = 100, curr = 200. -/
theorem C6_witness : safeDelta 100 200 = ((200 : Int) - (100 : Int), true) :=
  (C6_safeDelta 100 200).2.2.1 (by decide) (by decide)

/-- C6 counterexample: at prev = 0, curr = 2 to the 63 the int64 cast wraps
negative, so the returned value is not the difference curr - prev. -/
theorem C6_counterexample :
    safeDelta 0 (2 ^ 63) = (-(2 ^ 63), true) ∧
    ((2 ^ 63 : Nat) : Int) - ((0 : Nat) : Int) ≠ -(2 ^ 63) := by
  constructor
  · rw [safeDelta, if_neg (by norm_num), Prod.mk.injEq]
    refine ⟨?_, rfl⟩
    rw [Nat.sub_zero, Nat.mod_eq_of_lt (by norm_num), toInt64, if_neg (by norm_num)]
    norm_num
  · norm_num

/-- C4 (amended): sendMetrics fails exactly on a transport error, timeout,
or status at least 300; sendWatchdog fails exactly on a transport error or
any status other than 200 (so also on 2xx statuses other than 200);
sendProcesses fails exactly on a transport error or status at least 400
(so 3xx statuses succeed); the metrics caller sees only the boolean
outcome, so all failure kinds drive backoff identically. -/
theorem C4_dispatch_outcomes (r : HttpOutcome) :
    ((sendMetrics r).isOk = true ↔ ∃ s, r = HttpOutcome.response s ∧ s < 300) ∧
    ((sendWatchdog r).isOk = true ↔ r = HttpOutcome.response 200) ∧
    ((sendProcesses r).isOk = true ↔ ∃ s, r = HttpOutcome.response s ∧ s < 400) ∧
    (∀ st nt netOK fc r2, (sendMetrics r).isOk = false → (sendMetrics r2).isOk = false →
      runAgentNetStep st nt netOK (sendMetrics r).isOk fc =
        runAgentNetStep st nt netOK (sendMetrics r2).isOk fc) := by
  refine ⟨?_, ?_, ?_, ?_⟩
  · cases r with
    | transportError => simp [sendMetrics, Except.isOk, Except.toBool]
    | response s =>
        by_cases h : 300 ≤ s
        · simp only [sendMetrics, if_pos h, Except.isOk, Except.toBool]
          constructor
          · intro hc
            exact absurd hc (by simp)
          · rintro ⟨t, ht, hlt⟩
            cases ht
            omega
        · simp only [sendMetrics, if_neg h, Except.isOk, Except.toBool]
          exact ⟨fun _ => ⟨s, rfl, by omega⟩, fun _ => trivial⟩
  · cases r with
    | transportError => simp [sendWatchdog, Except.isOk, Except.toBool]
    | response s =>
        by_cases h : s = 200
        · subst h
          simp [sendWatchdog, Except.isOk, Except.toBool]
        · simp only [sendWatchdog, if_pos h, Except.isOk, Except.toBool]
          constructor
          · intro hc
            exact absurd hc (by simp)
          · intro ht
            cases ht
            exact absurd rfl h
  · cases r with
    | transportError => simp [sendProcesses, Except.isOk, Except.toBool]
    | response s =>
        by_cases h : 400 ≤ s
        · simp only [sendProcesses, if_pos h, Except.isOk, Except.toBool]
          constructor
          · intro hc
            exact absurd hc (by simp)
          · rintro ⟨t, ht, hlt⟩
            cases ht
            omega
        · simp only [sendProcesses, if_neg h, Except.isOk, Except.toBool]
          exact ⟨fun _ => ⟨s, rfl, by omega⟩, fun _ => trivial⟩
  · intro st nt netOK fc r2 h1 h2
    rw [h1, h2]

/-- C4 witness: the theorem applied at concrete responses. -/
theorem C4_witness :
    (sendWatchdog (HttpOutcome.response 200)).isOk = true ∧
    (sendMetrics (HttpOutcome.response 299)).isOk = true :=
  ⟨(C4_dispatch_outcomes (HttpOutcome.response 200)).2.1.mpr rfl,
   (C4_dispatch_outcomes (HttpOutcome.response 299)).1.mpr ⟨299, rfl, by omega⟩⟩

/-- C4 counterexample: status 201 is below 300 yet sendWatchdog fails, and
status 300 is at least 300 yet sendProcesses succeeds, so the claimed
uniform at-least-300 failure condition is false. -/
theorem C4_counterexample :
    (sendWatchdog (HttpOutcome.response 201)).isOk = false ∧
    (sendProcesses (HttpOutcome.response 300)).isOk = true := by decide

/-- C10: the previous aggregate net snapshot of runAgent is updated to the
round totals exactly when the dispatch succeeded and the net read was
valid; every dispatch failure leaves the snapshot untouched and increments
failCount, over any number of consecutive failed rounds. -/
theorem C10_net_snapshot_frame (st : AgentNetState) (nt : Nat × Nat)
    (netOK : Bool) (fc : Int) :
    runAgentNetStep st nt netOK false fc = (st, fc + 1) ∧
    runAgentNetStep st nt true true fc = (⟨nt, true⟩, 0) ∧
    runAgentNetStep st nt false true fc = (st, 0) ∧
    ∀ rounds : List ((Nat × Nat) × Bool),
      rounds.foldl (fun s r => (runAgentNetStep s r.1 r.2 false fc).1) st = st := by
  refine ⟨rfl, rfl, rfl, ?_⟩
  have haux : ∀ (l : List ((Nat × Nat) × Bool)) (s : AgentNetState),
      l.foldl (fun s r => (runAgentNetStep s r.1 r.2 false fc).1) s = s := by
    intro l
    induction l with
    | nil => intro s; rfl
    | cons hd tl ih =>
        intro s
        simp only [List.foldl_cons]
        exact ih s
  exact fun rounds => haux rounds st

/-- C10 witness: the theorem applied at a concrete state and totals. -/
theorem C10_witness :
    runAgentNetStep ⟨(1, 2), true⟩ (3, 4) true false 0 = (⟨(1, 2), true⟩, 1) :=
  (C10_net_snapshot_frame ⟨(1, 2), true⟩ (3, 4) true 0).1

/-- C3 (amended): samePIDs a b holds exactly when the lists have equal
length and every PID of b occurs in a (so it is order-insensitive and
treats nil and empty alike, and on duplicate-free lists — the only inputs
the process listing produces — it coincides with set equality), but it is
not set equality in general. -/
theorem C3_samePIDs_characterization (a b : List Int) :
    (samePIDs a b = true ↔ a.length = b.length ∧ ∀ x ∈ b, x ∈ a) ∧
    (a.Nodup → b.Nodup → (samePIDs a b = true ↔ ∀ x : Int, x ∈ a ↔ x ∈ b)) ∧
    samePIDs [1, 2, 3] [3, 1, 2] = true ∧
    samePIDs [] [] = true ∧
    samePIDs [1, 2] [1, 2, 3] = false := by
  have hchar : samePIDs a b = true ↔ a.length = b.length ∧ ∀ x ∈ b, x ∈ a := by
    unfold samePIDs
    split_ifs with h
    · simp only [Bool.false_eq_true, false_iff, not_and]
      intro hl
      exact absurd hl h
    · push_neg at h
      simp [List.all_eq_true, h]
  refine ⟨hchar, ?_, by decide, by decide, by decide⟩
  intro hna hnb
  rw [hchar]
  constructor
  · rintro ⟨hlen, hsub⟩
    have hperm : b.Perm a :=
      (List.Nodup.subperm hnb hsub).perm_of_length_le (by omega)
    intro x
    exact ⟨fun hx => (hperm.mem_iff).mpr hx, fun hx => (hperm.mem_iff).mp hx⟩
  · intro hiff
    have hsub : ∀ x ∈ b, x ∈ a := fun x hx => (hiff x).mpr hx
    refine ⟨?_, hsub⟩
    have hperm : a.Perm b := (List.perm_ext_iff_of_nodup hna hnb).mpr hiff
    exact hperm.length_eq

/-- C3 witness: the theorem applied at the quoted example lists. -/
theorem C3_witness : samePIDs [1, 2, 3] [3, 1, 2] = true :=
  (C3_samePIDs_characterization [1, 2, 3] [3, 1, 2]).2.2.1

/-- C3 counterexample: samePIDs accepts lists with different member sets
(equal length, containment one way only) and rejects lists with equal
member sets but different lengths, so it is not set equality. -/
theorem C3_counterexample :
    samePIDs [1, 2] [1, 1] = true ∧ pidSetEqB [1, 2] [1, 1] = false ∧
    samePIDs [1, 1] [1] = false ∧ pidSetEqB [1, 1] [1] = true := by decide

theorem lookupName_eq_none {α : Type} (m : List (String × α)) (k : String) :
    lookupName m k = none ↔ k ∉ keysOf m := by
  induction m with
  | nil => simp [lookupName, keysOf]
  | cons hd tl ih =>
      obtain ⟨n, v⟩ := hd
      by_cases h : n = k
      · subst h
        simp [lookupName, keysOf]
      · have h2 : ¬ k = n := fun he => h he.symm
        simp [lookupName, keysOf, h, h2, ih]

theorem lookupName_mem {α : Type} {m : List (String × α)} {k : String} {v : α}
    (h : lookupName m k = some v) : (k, v) ∈ m := by
  induction m with
  | nil => simp [lookupName] at h
  | cons hd tl ih =>
      obtain ⟨n, w⟩ := hd
      by_cases hn : n = k
      · subst hn
        have hw : w = v := by simpa [lookupName] using h
        subst hw
        exact List.mem_cons_self _ _
      · simp only [lookupName, if_neg hn] at h
        exact List.mem_cons_of_mem _ (ih h)

theorem lookupName_of_mem_nodup {α : Type} {m : List (String × α)} {k : String} {v : α}
    (hnd : (keysOf m).Nodup) (h : (k, v) ∈ m) : lookupName m k = some v := by
  induction m with
  | nil => simp at h
  | cons hd tl ih =>
      obtain ⟨n, w⟩ := hd
      simp only [keysOf, List.map_cons, List.nodup_cons] at hnd
      rcases List.mem_cons.mp h with heq | htl
      · cases heq
        simp [lookupName]
      · have hne : n ≠ k := by
          intro he
          subst he
          exact hnd.1 (List.mem_map_of_mem Prod.fst htl)
        simp only [lookupName, if_neg hne]
        exact ih hnd.2 htl

theorem countP_fst_nodup {α : Type} (p : String → Bool) (nm : String) :
    ∀ m : List (String × α), (keysOf m).Nodup →
      m.countP (fun pr => decide (pr.1 = nm) && p pr.1) =
        if nm ∈ keysOf m ∧ p nm = true then 1 else 0 := by
  intro m
  induction m with
  | nil => simp [keysOf]
  | cons hd tl ih =>
      intro hnd
      obtain ⟨n, v⟩ := hd
      simp only [keysOf, List.map_cons, List.nodup_cons] at hnd
      rw [List.countP_cons, ih hnd.2]
      by_cases h : n = nm
      · subst h
        have hnot : ¬ (n ∈ keysOf tl ∧ p n = true) := fun hc => hnd.1 hc.1
        rw [if_neg hnot]
        by_cases hp : p n = true
        · simp [hp, keysOf]
        · simp [hp, keysOf]
      · have h2 : ¬ nm = n := fun he => h he.symm
        have hh : (decide ((n, v).1 = nm) && p (n, v).1) = false := by simp [h]
        rw [hh]
        have hiff : (nm ∈ n :: List.map Prod.fst tl ∧ p nm = true) ↔
            (nm ∈ List.map Prod.fst tl ∧ p nm = true) := by
          simp [List.mem_cons, h2]
        simp only [keysOf, List.map_cons]
        rw [if_congr hiff rfl rfl]
        simp [keysOf]

theorem classifyOne_name (current : List (String × List Int)) (now : Nat)
    (pr : String × watchdogProcess) : (classifyOne current now pr).name = pr.1 := by
  unfold classifyOne
  cases lookupName current pr.1 with
  | none => rfl
  | some pids =>
      dsimp only
      split <;> rfl

theorem countP_classifyPrev (current : List (String × List Int)) (now : Nat)
    (previous : List (String × watchdogProcess)) (nm : String) :
    (classifyPrev current now previous).countP (fun e => decide (e.name = nm)) =
      previous.countP (fun pr => decide (pr.1 = nm)) := by
  unfold classifyPrev
  rw [List.countP_map]
  apply List.countP_congr
  intro pr _
  simp [Function.comp, classifyOne_name]

theorem countP_newSightings (previous : List (String × watchdogProcess)) (now : Nat)
    (current : List (String × List Int)) (nm : String) :
    (newSightings previous now current).countP (fun e => decide (e.name = nm)) =
      current.countP
        (fun c => decide (c.1 = nm) && decide (lookupName previous c.1 = none)) := by
  induction current with
  | nil => rfl
  | cons c tl ih =>
      unfold newSightings at ih ⊢
      cases h : lookupName previous c.1 with
      | some w => simp [List.filterMap_cons, h, ih, List.countP_cons]
      | none => simp [List.filterMap_cons, h, ih, List.countP_cons]

theorem charListLt_nil_right (l : List Char) : charListLt l [] = false := by
  cases l <;> rfl

theorem charListLt_asymm :
    ∀ a b : List Char, charListLt a b = true → charListLt b a = false := by
  intro a
  induction a with
  | nil =>
      intro b hb
      cases b with
      | nil => simp [charListLt] at hb
      | cons x xs => exact charListLt_nil_right _
  | cons x xs ih =>
      intro b hb
      cases b with
      | nil => rw [charListLt_nil_right] at hb; exact absurd hb (by simp)
      | cons y ys =>
          rcases Nat.lt_trichotomy x.toNat y.toNat with h | h | h
          · have hyx : ¬ y.toNat < x.toNat := by omega
            simp [charListLt, hyx, h]
          · have hxy : ¬ x.toNat < y.toNat := by omega
            have hyx : ¬ y.toNat < x.toNat := by omega
            simp only [charListLt, if_neg hxy, if_neg hyx] at hb
            simp only [charListLt, if_neg hyx, if_neg hxy]
            exact ih ys hb
          · have hxy : ¬ x.toNat < y.toNat := by omega
            simp only [charListLt, if_neg hxy, if_pos h] at hb
            exact absurd hb (by simp)

theorem charListLt_negtrans :
    ∀ a b c : List Char, charListLt b a = false → charListLt c b = false →
      charListLt c a = false := by
  intro a
  induction a with
  | nil => intro b c h1 h2; exact charListLt_nil_right c
  | cons x xs ih =>
      intro b c h1 h2
      cases b with
      | nil => simp [charListLt] at h1
      | cons y ys =>
          cases c with
          | nil => simp [charListLt] at h2
          | cons z zs =>
              by_cases hyx : y.toNat < x.toNat
              · simp only [charListLt, if_pos hyx] at h1
                exact absurd h1 (by simp)
              · by_cases hzy : z.toNat < y.toNat
                · simp only [charListLt, if_pos hzy] at h2
                  exact absurd h2 (by simp)
                · have hzx : ¬ z.toNat < x.toNat := by omega
                  by_cases hxz : x.toNat < z.toNat
                  · simp [charListLt, hzx, hxz]
                  · have hxy : ¬ x.toNat < y.toNat := by omega
                    have hyz : ¬ y.toNat < z.toNat := by omega
                    simp only [charListLt, if_neg hyx, if_neg hxy] at h1
                    simp only [charListLt, if_neg hzy, if_neg hyz] at h2
                    simp only [charListLt, if_neg hzx, if_neg hxz]
                    exact ih ys zs h1 h2

theorem mem_classifyPrev {previous : List (String × watchdogProcess)}
    {current : List (String × List Int)} {now : Nat} {e : WatchdogEntry}
    (hnd : (keysOf previous).Nodup) (he : e ∈ classifyPrev current now previous) :
    entryMatchesDiff previous current now e := by
  unfold classifyPrev at he
  rcases List.mem_map.mp he with ⟨pr, hpr, heq⟩
  subst heq
  have hname : (classifyOne current now pr).name = pr.1 := classifyOne_name current now pr
  have hlookup : lookupName previous pr.1 = some pr.2 :=
    lookupName_of_mem_nodup hnd (by rw [Prod.mk.eta]; exact hpr)
  unfold entryMatchesDiff
  rw [hname, hlookup]
  cases hc : lookupName current pr.1 with
  | none =>
      simp only [classifyOne, hc]
  | some pids =>
      simp only [classifyOne, hc]

theorem mem_newSightings {previous : List (String × watchdogProcess)}
    {current : List (String × List Int)} {now : Nat} {e : WatchdogEntry}
    (hnd : (keysOf current).Nodup) (he : e ∈ newSightings previous now current) :
    entryMatchesDiff previous current now e := by
  unfold newSightings at he
  rcases List.mem_filterMap.mp he with ⟨c, hc, hce⟩
  cases hl : lookupName previous c.1 with
  | some w =>
      rw [hl] at hce
      simp at hce
  | none =>
      rw [hl] at hce
      simp only [Option.some.injEq] at hce
      subst hce
      have hcur : lookupName current c.1 = some c.2 :=
        lookupName_of_mem_nodup hnd (by rw [Prod.mk.eta]; exact hc)
      simp [entryMatchesDiff, hl, hcur]

theorem keysOf_addPid (m : List (String × List Int)) (name : String) (pid : Int) :
    keysOf (addPid m name pid) = keysOf m ∨
      keysOf (addPid m name pid) = keysOf m ++ [name] ∧ name ∉ keysOf m := by
  induction m with
  | nil => right; simp [addPid, keysOf]
  | cons hd tl ih =>
      obtain ⟨n, ps⟩ := hd
      by_cases h : n = name
      · left
        simp [addPid, h, keysOf]
      · rcases ih with h1 | ⟨h1, h2⟩
        · left
          simp [addPid, h, keysOf] at h1 ⊢
          exact h1
        · right
          constructor
          · simp [addPid, h, keysOf] at h1 ⊢
            exact h1
          · simp [keysOf] at h2 ⊢
            exact ⟨fun he => h he.symm, h2⟩

theorem nodup_keys_addPid (m : List (String × List Int)) (name : String) (pid : Int)
    (hnd : (keysOf m).Nodup) : (keysOf (addPid m name pid)).Nodup := by
  rcases keysOf_addPid m name pid with h | ⟨h, hmem⟩
  · rw [h]; exact hnd
  · rw [h]
    simp [List.nodup_append, hnd, List.Disjoint]
    intro a ha he
    subst he
    exact hmem ha

theorem nodup_keys_buildCurrent (procs : List (Int × String)) :
    (keysOf (buildCurrent procs)).Nodup := by
  unfold buildCurrent
  have haux : ∀ (l : List (Int × String)) (m : List (String × List Int)),
      (keysOf m).Nodup →
      (keysOf (l.foldl (fun m p => if p.2 = ("") then m else addPid m p.2 p.1) m)).Nodup := by
    intro l
    induction l with
    | nil => intro m hm; exact hm
    | cons hd tl ih =>
        intro m hm
        simp only [List.foldl_cons]
        by_cases h : hd.2 = ("")
        · rw [if_pos h]; exact ih m hm
        · rw [if_neg h]; exact ih _ (nodup_keys_addPid m hd.2 hd.1 hm)
  exact haux procs [] (by simp [keysOf])

theorem mem_keysOf_insertA {α : Type} (m : List (String × α)) (k : String) (v : α)
    (x : String) (hx : x ∈ keysOf (insertA m k v)) : x = k ∨ x ∈ keysOf m := by
  induction m with
  | nil =>
      simp only [insertA, keysOf, List.map_cons, List.map_nil,
        List.mem_singleton] at hx
      exact Or.inl hx
  | cons hd tl ih =>
      obtain ⟨n, w⟩ := hd
      by_cases h : n = k
      · simp only [insertA, if_pos h, keysOf, List.map_cons] at hx
        exact Or.inr hx
      · simp only [insertA, if_neg h, keysOf, List.map_cons, List.mem_cons] at hx
        rcases hx with h1 | h1
        · exact Or.inr (List.mem_cons.mpr (Or.inl h1))
        · rcases ih h1 with h2 | h2
          · exact Or.inl h2
          · exact Or.inr (List.mem_cons.mpr (Or.inr h2))

theorem netNext_keys_not_loopback (statList : List IOCountersStat) :
    ∀ name ∈ keysOf (netNext statList), isLoopback name = false := by
  unfold netNext
  have haux : ∀ (l : List IOCountersStat) (m : List (String × IOCountersStat)),
      (∀ n ∈ keysOf m, isLoopback n = false) →
      ∀ n ∈ keysOf (l.foldl (fun m s => if isLoopback s.Name then m else insertA m s.Name s) m),
        isLoopback n = false := by
    intro l
    induction l with
    | nil => intro m hm; exact hm
    | cons hd tl ih =>
        intro m hm
        simp only [List.foldl_cons]
        by_cases h : isLoopback hd.Name
        · rw [if_pos h]; exact ih m hm
        · rw [if_neg h]
          apply ih
          intro n hn
          rcases mem_keysOf_insertA m hd.Name hd n hn with h1 | h1
          · subst h1
            exact Bool.eq_false_iff.mpr h
          · exact hm n h1
  exact haux statList [] (by simp [keysOf])

theorem wdPre_countP (previous : List (String × watchdogProcess))
    (current : List (String × List Int)) (now : Nat) (nm : String)
    (hprev : (keysOf previous).Nodup) (hcur : (keysOf current).Nodup) :
    (wdPre previous current now).countP (fun e => decide (e.name = nm)) =
      if nm ∈ keysOf previous ∨ nm ∈ keysOf current then 1 else 0 := by
  unfold wdPre
  rw [List.countP_append, countP_classifyPrev, countP_newSightings]
  have h1 : previous.countP (fun pr => decide (pr.1 = nm)) =
      if nm ∈ keysOf previous then 1 else 0 := by
    have hc := countP_fst_nodup (fun _ => true) nm previous hprev
    have he : previous.countP (fun pr => decide (pr.1 = nm)) =
        previous.countP (fun pr => decide (pr.1 = nm) && (fun _ : String => true) pr.1) :=
      List.countP_congr (by intro a _; simp)
    rw [he, hc]
    simp
  have h2 : current.countP
      (fun c => decide (c.1 = nm) && decide (lookupName previous c.1 = none)) =
      if nm ∈ keysOf current ∧ nm ∉ keysOf previous then 1 else 0 := by
    rw [countP_fst_nodup (fun s => decide (lookupName previous s = none)) nm current hcur]
    have hiff : (nm ∈ keysOf current ∧ decide (lookupName previous nm = none) = true) ↔
        (nm ∈ keysOf current ∧ nm ∉ keysOf previous) := by
      rw [decide_eq_true_eq, lookupName_eq_none]
    exact if_congr hiff rfl rfl
  rw [h1, h2]
  by_cases hp : nm ∈ keysOf previous <;> by_cases hc2 : nm ∈ keysOf current <;>
    simp [hp, hc2]

/-- C5 (amended): with snapshots whose keys are distinct (as Go maps
guarantee), every name in the union of the previous and current snapshots
yields exactly one entry of the pre-truncation diff, and every emitted
entry carries exactly the status, restart count, last-seen time and PID
list the classification prescribes; the transmitted list is the diff
sorted by name and truncated to the first 100 entries, hence name-sorted,
of length at most 100, and containing exactly one entry per union name
whenever at most 100 entries were classified (names beyond the cap are
dropped). -/
theorem C5_watchdog_classification (previous : List (String × watchdogProcess))
    (current : List (String × List Int)) (now : Nat)
    (hprev : (keysOf previous).Nodup) (hcur : (keysOf current).Nodup) :
    (∀ nm : String,
        (wdPre previous current now).countP (fun e => decide (e.name = nm)) =
          if nm ∈ keysOf previous ∨ nm ∈ keysOf current then 1 else 0) ∧
    (∀ e ∈ wdPre previous current now, entryMatchesDiff previous current now e) ∧
    collectWatchdogEntries previous current now =
      (List.insertionSort entryLe (wdPre previous current now)).take 100 ∧
    (collectWatchdogEntries previous current now).length ≤ 100 ∧
    List.Pairwise entryLe (collectWatchdogEntries previous current now) ∧
    ((wdPre previous current now).length ≤ 100 →
      ∀ nm : String,
        (collectWatchdogEntries previous current now).countP
            (fun e => decide (e.name = nm)) =
          if nm ∈ keysOf previous ∨ nm ∈ keysOf current then 1 else 0) := by
  haveI htot : IsTotal WatchdogEntry entryLe := by
    constructor
    intro a b
    unfold entryLe strLeB strLtB
    by_cases h : charListLt b.name.data a.name.data = true
    · exact Or.inr (by simp [charListLt_asymm _ _ h])
    · exact Or.inl (by simp [Bool.eq_false_iff.mpr h])
  haveI htrans : IsTrans WatchdogEntry entryLe := by
    constructor
    intro a b c h1 h2
    unfold entryLe strLeB strLtB at h1 h2 ⊢
    rw [Bool.not_eq_true'] at h1 h2 ⊢
    exact charListLt_negtrans _ _ _ h1 h2
  refine ⟨fun nm => wdPre_countP previous current now nm hprev hcur, ?_, rfl, ?_, ?_, ?_⟩
  · intro e he
    rcases List.mem_append.mp he with h | h
    · exact mem_classifyPrev hprev h
    · exact mem_newSightings hcur h
  · unfold collectWatchdogEntries
    rw [List.length_take]
    exact Nat.min_le_left _ _
  · have hsorted := List.sorted_insertionSort entryLe (wdPre previous current now)
    exact List.Pairwise.sublist (List.take_sublist _ _) hsorted
  · intro hlen nm
    have hperm : (List.insertionSort entryLe (wdPre previous current now)).Perm
        (wdPre previous current now) := List.perm_insertionSort _ _
    unfold collectWatchdogEntries
    rw [List.take_of_length_le (by rw [hperm.length_eq]; exact hlen)]
    rw [hperm.countP_eq]
    exact wdPre_countP previous current now nm hprev hcur

/-- C5 witness: the theorem applied at a concrete pair of snapshots. -/
theorem C5_witness :
    (wdPre [("a", ⟨[1], 0⟩)] [("b", [2])] 7).countP
      (fun e => decide (e.name = "a")) = 1 := by
  have h := C5_watchdog_classification [("a", ⟨[1], 0⟩)] [("b", [2])] 7
    (by decide) (by decide)
  rw [h.1 ("a")]
  decide

/-- C5 counterexample: with an empty previous snapshot and 101 current
names, the union has 101 names but the emitted output has only 100
entries, and the lexicographically largest name dw yields no entry at all,
so the claim that every union name yields exactly one output entry is
false. -/
theorem C5_counterexample :
    (buildCurrent manyProcs).length = 101 ∧
    ("dw" ∈ keysOf (buildCurrent manyProcs)) ∧
    (collectWatchdogEntries [] (buildCurrent manyProcs) 0).length = 100 ∧
    (collectWatchdogEntries [] (buildCurrent manyProcs) 0).countP
      (fun e => decide (e.name = "dw")) = 0 := by decide

/-- C1: code-bug evaluation.  From an empty previous snapshot and one
running tracked process, collectWatchdog produces exactly one running
entry with restart count 0, yet sendWatchdogToBackend transmits the
payload (its baseline test is an empty entry list, which a non-empty
first round never satisfies), contrary to the claimed suppression. -/
theorem C1_baseline_round_transmitted :
    (collectWatchdog (some [(1, "nginx")]) ⟨[]⟩ 5).1 =
      some [⟨"nginx", "running", 0, 5, [1]⟩] ∧
    (sendWatchdogToBackend (some [(1, "nginx")]) ⟨[]⟩ 5).1 = true := by decide

/-- C8: when the process listing fails, collectWatchdog reports the error
and leaves the stored previous snapshot exactly as it was, and the caller
transmits nothing. -/
theorem C8_listing_failure_preserves_state (st : WdState) (now : Nat) :
    collectWatchdog none st now = (none, st) ∧
    sendWatchdogToBackend none st now = (false, st) := ⟨rfl, rfl⟩

/-- C8 witness: the theorem applied at a concrete stored snapshot. -/
theorem C8_witness :
    collectWatchdog none ⟨[("a", ⟨[1], 3⟩)]⟩ 9 = (none, ⟨[("a", ⟨[1], 3⟩)]⟩) :=
  (C8_listing_failure_preserves_state ⟨[("a", ⟨[1], 3⟩)]⟩ 9).1

theorem nodup_keys_insertA {α : Type} (m : List (String × α)) (k : String) (v : α)
    (hnd : (keysOf m).Nodup) : (keysOf (insertA m k v)).Nodup := by
  induction m with
  | nil => simp [insertA, keysOf]
  | cons hd tl ih =>
      obtain ⟨n, w⟩ := hd
      simp only [keysOf, List.map_cons, List.nodup_cons] at hnd
      by_cases h : n = k
      · simp only [insertA, if_pos h, keysOf, List.map_cons, List.nodup_cons]
        exact hnd
      · simp only [insertA, if_neg h, keysOf, List.map_cons, List.nodup_cons]
        refine ⟨?_, ih hnd.2⟩
        intro hmem
        rcases mem_keysOf_insertA tl k v n hmem with h1 | h1
        · exact h h1
        · exact hnd.1 h1

theorem nodup_keys_netNext (statList : List IOCountersStat) :
    (keysOf (netNext statList)).Nodup := by
  unfold netNext
  have haux : ∀ (l : List IOCountersStat) (m : List (String × IOCountersStat)),
      (keysOf m).Nodup →
      (keysOf (l.foldl
        (fun m s => if isLoopback s.Name then m else insertA m s.Name s) m)).Nodup := by
    intro l
    induction l with
    | nil => intro m hm; exact hm
    | cons hd tl ih =>
        intro m hm
        simp only [List.foldl_cons]
        by_cases h : isLoopback hd.Name
        · rw [if_pos h]; exact ih m hm
        · rw [if_neg h]; exact ih _ (nodup_keys_insertA m hd.Name hd hm)
  exact haux statList [] (by simp [keysOf])

theorem readNetTotals_skip_loopback (statList : List IOCountersStat) :
    readNetTotals (some statList) =
      readNetTotals (some (statList.filter fun s => !isLoopback s.Name)) := by
  unfold readNetTotals
  have haux : ∀ (l : List IOCountersStat) (t : Nat × Nat),
      l.foldl
        (fun t s =>
          if isLoopback s.Name then t
          else ((t.1 + s.BytesRecv) % 2 ^ 64, (t.2 + s.BytesSent) % 2 ^ 64)) t =
      (l.filter fun s => !isLoopback s.Name).foldl
        (fun t s =>
          if isLoopback s.Name then t
          else ((t.1 + s.BytesRecv) % 2 ^ 64, (t.2 + s.BytesSent) % 2 ^ 64)) t := by
    intro l
    induction l with
    | nil => intro t; rfl
    | cons hd tl ih =>
        intro t
        by_cases h : isLoopback hd.Name
        · rw [List.filter_cons_of_neg (by simp [h]), List.foldl_cons, if_pos h]
          exact ih t
        · rw [List.filter_cons_of_pos (by simp [h]), List.foldl_cons, List.foldl_cons,
            if_neg h]
          exact ih _
  exact congrArg (fun x => (x, true, false)) (haux statList (0, 0))

theorem ifaceDelta_none (prev : List (String × IOCountersStat))
    (c : String × IOCountersStat) (h : lookupName prev c.1 = none) :
    ifaceDelta prev c = none := by
  obtain ⟨nm, cs⟩ := c
  unfold ifaceDelta
  rw [h]

theorem ifaceDelta_some (prev : List (String × IOCountersStat))
    (c : String × IOCountersStat) (old : IOCountersStat)
    (h : lookupName prev c.1 = some old) :
    ifaceDelta prev c =
      if (safeDelta old.BytesRecv c.2.BytesRecv).2 &&
         (safeDelta old.BytesSent c.2.BytesSent).2 &&
         (safeDelta old.PacketsRecv c.2.PacketsRecv).2 &&
         (safeDelta old.PacketsSent c.2.PacketsSent).2 &&
         (safeDelta old.Errin c.2.Errin).2 &&
         (safeDelta old.Errout c.2.Errout).2 then
        some (fullIfaceEntry c.1 old c.2)
      else none := by
  obtain ⟨nm, cs⟩ := c
  unfold ifaceDelta
  rw [h]

/-- C7: for an interface present in both the previous snapshot and the
current (non-loopback) reading, collectIfaceMetrics emits an entry for it
exactly when all six counter deltas are valid, and any emitted entry is
the complete six-delta record — there is no partial per-field emission. -/
theorem C7_iface_all_or_nothing (statList : List IOCountersStat)
    (prev : List (String × IOCountersStat)) (name : String)
    (curr old : IOCountersStat)
    (hcur : lookupName (netNext statList) name = some curr)
    (hold : lookupName prev name = some old) :
    ((∃ e ∈ (collectIfaceMetrics (some statList) prev true).1, e.Iface = name) ↔
      allSixValid old curr) ∧
    (∀ e ∈ (collectIfaceMetrics (some statList) prev true).1,
      e.Iface = name → e = fullIfaceEntry name old curr) := by
  have hred : (collectIfaceMetrics (some statList) prev true).1 =
      (netNext statList).filterMap (ifaceDelta prev) := rfl
  have hnd := nodup_keys_netNext statList
  have hforward : ∀ e, e ∈ (collectIfaceMetrics (some statList) prev true).1 →
      e.Iface = name → allSixValid old curr ∧ e = fullIfaceEntry name old curr := by
    intro e he hein
    rw [hred] at he
    obtain ⟨c, hc, hgc⟩ := List.mem_filterMap.mp he
    rcases hl : lookupName prev c.1 with _ | oldc
    · rw [ifaceDelta_none prev c hl] at hgc
      exact absurd hgc (by simp)
    · rw [ifaceDelta_some prev c oldc hl] at hgc
      by_cases hcond : ((safeDelta oldc.BytesRecv c.2.BytesRecv).2 &&
          (safeDelta oldc.BytesSent c.2.BytesSent).2 &&
          (safeDelta oldc.PacketsRecv c.2.PacketsRecv).2 &&
          (safeDelta oldc.PacketsSent c.2.PacketsSent).2 &&
          (safeDelta oldc.Errin c.2.Errin).2 &&
          (safeDelta oldc.Errout c.2.Errout).2) = true
      · rw [if_pos hcond] at hgc
        have he2 : e = fullIfaceEntry c.1 oldc c.2 := (Option.some.inj hgc).symm
        have hc1 : c.1 = name := by
          rw [he2] at hein
          exact hein
        have hlc : lookupName (netNext statList) c.1 = some c.2 :=
          lookupName_of_mem_nodup hnd (by rw [Prod.mk.eta]; exact hc)
        rw [hc1] at hlc hl
        have hcc : c.2 = curr := Option.some.inj (hlc.symm.trans hcur)
        have holdc : oldc = old := Option.some.inj (hl.symm.trans hold)
        rw [hcc, holdc] at hcond
        simp only [Bool.and_eq_true] at hcond
        obtain ⟨⟨⟨⟨⟨h1, h2⟩, h3⟩, h4⟩, h5⟩, h6⟩ := hcond
        refine ⟨⟨h1, h2, h3, h4, h5, h6⟩, ?_⟩
        rw [he2, hc1, holdc, hcc]
      · rw [if_neg hcond] at hgc
        exact absurd hgc (by simp)
  have hback : allSixValid old curr →
      fullIfaceEntry name old curr ∈ (collectIfaceMetrics (some statList) prev true).1 := by
    intro hv
    obtain ⟨h1, h2, h3, h4, h5, h6⟩ := hv
    rw [hred]
    apply List.mem_filterMap.mpr
    refine ⟨(name, curr), lookupName_mem hcur, ?_⟩
    have hl2 : lookupName prev (name, curr).1 = some old := hold
    rw [ifaceDelta_some prev (name, curr) old hl2]
    rw [if_pos (by rw [h1, h2, h3, h4, h5, h6]; rfl)]
  refine ⟨⟨?_, ?_⟩, ?_⟩
  · rintro ⟨e, he, hein⟩
    exact (hforward e he hein).1
  · intro hv
    exact ⟨fullIfaceEntry name old curr, hback hv, rfl⟩
  · intro e he hein
    exact (hforward e he hein).2

/-- C7 witness: the theorem applied at a concrete one-interface reading. -/
theorem C7_witness :
    ∃ e ∈ (collectIfaceMetrics (some [⟨"eth0", 200, 300, 20, 30, 2, 3⟩])
      [("eth0", ⟨"eth0", 100, 200, 10, 20, 1, 2⟩)] true).1, e.Iface = "eth0" := by
  have h := C7_iface_all_or_nothing [⟨"eth0", 200, 300, 20, 30, 2, 3⟩]
    [("eth0", ⟨"eth0", 100, 200, 10, 20, 1, 2⟩)] ("eth0")
    ⟨"eth0", 200, 300, 20, 30, 2, 3⟩ ⟨"eth0", 100, 200, 10, 20, 1, 2⟩
    (by decide) (by decide)
  exact h.1.mpr ⟨by decide, by decide, by decide, by decide, by decide, by decide⟩

/-- C9: interfaces whose lowercased name begins with lo are excluded from
every round: the aggregate totals of readNetTotals are unchanged by
removing them from the reading, the per-interface snapshot of
collectIfaceMetrics contains no such key, and no emitted per-interface
entry carries such a name. -/
theorem C9_loopback_excluded (statList : List IOCountersStat) :
    readNetTotals (some statList) =
      readNetTotals (some (statList.filter fun s => !isLoopback s.Name)) ∧
    (∀ name ∈ keysOf (netNext statList), isLoopback name = false) ∧
    (∀ prev hasPrev, ∀ e ∈ (collectIfaceMetrics (some statList) prev hasPrev).1,
      isLoopback e.Iface = false) := by
  refine ⟨readNetTotals_skip_loopback statList, netNext_keys_not_loopback statList, ?_⟩
  intro prev hasPrev e he
  cases hasPrev with
  | false => simp [collectIfaceMetrics] at he
  | true =>
      have hred : (collectIfaceMetrics (some statList) prev true).1 =
          (netNext statList).filterMap (ifaceDelta prev) := rfl
      rw [hred] at he
      obtain ⟨c, hc, hgc⟩ := List.mem_filterMap.mp he
      have hiface : e.Iface = c.1 := by
        rcases hl : lookupName prev c.1 with _ | oldc
        · rw [ifaceDelta_none prev c hl] at hgc
          exact absurd hgc (by simp)
        · rw [ifaceDelta_some prev c oldc hl] at hgc
          by_cases hcond : ((safeDelta oldc.BytesRecv c.2.BytesRecv).2 &&
              (safeDelta oldc.BytesSent c.2.BytesSent).2 &&
              (safeDelta oldc.PacketsRecv c.2.PacketsRecv).2 &&
              (safeDelta oldc.PacketsSent c.2.PacketsSent).2 &&
              (safeDelta oldc.Errin c.2.Errin).2 &&
              (safeDelta oldc.Errout c.2.Errout).2) = true
          · rw [if_pos hcond] at hgc
            rw [← Option.some.inj hgc]
            rfl
          · rw [if_neg hcond] at hgc
            exact absurd hgc (by simp)
      rw [hiface]
      exact netNext_keys_not_loopback statList c.1 (List.mem_map_of_mem Prod.fst hc)

/-- C9 witness: the theorem applied at a reading with a loopback and a
physical interface. -/
theorem C9_witness : isLoopback ("eth0") = false := by
  have h := C9_loopback_excluded
    [⟨"lo0", 1, 1, 1, 1, 1, 1⟩, ⟨"eth0", 2, 2, 2, 2, 2, 2⟩]
  exact h.2.1 ("eth0") (by decide)
